import Mathlib

/-!
# Verification of the accounting-demo transaction/account state machine

Shallow embedding of `src/account.rs` and `src/account_manager.rs`.

Modelling choices:
* Monetary amounts (`f64` in the source, "decimal amount" in the spec's data
  model) are embedded as `ℚ`, so that the algebraic invariants (conservation,
  non-negativity) are stated exactly.
* `ClientId` (`u16`) and `TransactionId` (`u32`) are embedded as `ℕ`; the code
  only ever compares them for equality.
* The two `HashMap`s are embedded as association lists with insert-or-update
  semantics (`listUpdate`), which preserves the maps' key/value semantics; the
  Rust `entry(k).or_default()` pattern is modelled faithfully, in particular
  the insertion of a fresh default `Account` happens even when the operation
  called on it subsequently fails.
* `&mut self` methods become functions `State → State` (or
  `State → State × Except e Unit` when fallible); `Result` becomes `Except`.
-/

namespace Accounting

abbrev ClientId : Type := ℕ
abbrev TransactionId : Type := ℕ

/-- `enum AccountError` from `src/account.rs`. -/
inductive AccountError where
  | InsufficientFunds (requested available : ℚ)
  | Locked
  deriving Repr, DecidableEq

/-- `struct Account` from `src/account.rs`: one client's fund buckets and
lock flag.  The field `disputed` is the "held" bucket. -/
structure Account where
  available : ℚ
  disputed : ℚ
  locked : Bool
  deriving Repr, DecidableEq

/-- `Account::new` / `Default`: zero balances, unlocked. -/
def Account.new : Account := { available := 0, disputed := 0, locked := false }

/-- `Account::check_sufficient_funds`. -/
def Account.check_sufficient_funds (a : Account) (requested : ℚ) :
    Except AccountError Unit :=
  if requested > a.available then
    .error (.InsufficientFunds requested a.available)
  else .ok ()

/-- `Account::check_locked`. -/
def Account.check_locked (a : Account) : Except AccountError Unit :=
  if a.locked then .error .Locked else .ok ()

/-- `Account::deposit`: unconditional `available += amount`. -/
def Account.deposit (a : Account) (amount : ℚ) : Account :=
  { a with available := a.available + amount }

/-- `Account::withdraw`. -/
def Account.withdraw (a : Account) (amount : ℚ) : Except AccountError Account :=
  match a.check_locked with
  | .error e => .error e
  | .ok _ =>
    match a.check_sufficient_funds amount with
    | .error e => .error e
    | .ok _ => .ok { a with available := a.available - amount }

/-- `Account::dispute`: move `amount` from available to held, after the same
checks as `withdraw`. -/
def Account.dispute (a : Account) (amount : ℚ) : Except AccountError Account :=
  match a.check_locked with
  | .error e => .error e
  | .ok _ =>
    match a.check_sufficient_funds amount with
    | .error e => .error e
    | .ok _ =>
      .ok { a with available := a.available - amount,
                   disputed := a.disputed + amount }

/-- `Account::resolve`: unconditional `available += amount; disputed -= amount`. -/
def Account.resolve (a : Account) (amount : ℚ) : Account :=
  { a with available := a.available + amount, disputed := a.disputed - amount }

/-- `Account::chargeback`: unconditional `disputed -= amount; locked = true`. -/
def Account.chargeback (a : Account) (amount : ℚ) : Account :=
  { a with disputed := a.disputed - amount, locked := true }

/-- `Account::total`: `available + disputed`. -/
def Account.total (a : Account) : ℚ := a.available + a.disputed

/-- `enum AccountManagerError` from `src/account_manager.rs`. -/
inductive AccountManagerError where
  | Account (e : AccountError)
  | Unauthorized (client_id owner_id : ClientId)
  | Undisputed (id : TransactionId)
  | AlreadyDisputed (id : TransactionId)
  | TransactionNotFound (id : TransactionId)
  deriving Repr, DecidableEq

/-- `struct TxCacheEntry`: the ledger's history entry for a deposit. -/
structure TxCacheEntry where
  client_id : ClientId
  amount : ℚ
  disputed : Bool
  deriving Repr, DecidableEq

/-- `TxCacheEntry::new`. -/
def TxCacheEntry.new (client_id : ClientId) (amount : ℚ) : TxCacheEntry :=
  { client_id := client_id, amount := amount, disputed := false }

/-- `check_authorization` from `src/account_manager.rs`. -/
def check_authorization (tx : TxCacheEntry) (client_id : ClientId) :
    Except AccountManagerError Unit :=
  if tx.client_id ≠ client_id then
    .error (.Unauthorized client_id tx.client_id)
  else .ok ()

/-- `check_disputed` from `src/account_manager.rs`. -/
def check_disputed (tx : TxCacheEntry) (id : TransactionId) :
    Except AccountManagerError Unit :=
  if !tx.disputed then .error (.Undisputed id) else .ok ()

/-- `check_undisputed` from `src/account_manager.rs`. -/
def check_undisputed (tx : TxCacheEntry) (id : TransactionId) :
    Except AccountManagerError Unit :=
  if tx.disputed then .error (.AlreadyDisputed id) else .ok ()

/-- Insert-or-update on an association list: replaces the (first) binding of
key `k`, or appends one.  This models `HashMap::insert` and the write half of
`entry(k).or_default()`. -/
def listUpdate {β : Type} (k : ℕ) (v : β) : List (ℕ × β) → List (ℕ × β)
  | [] => [(k, v)]
  | p :: ps => if p.1 = k then (k, v) :: ps else p :: listUpdate k v ps

/-- `struct AccountManager`: the ledger, owning the accounts map and the
transaction history. -/
structure AccountManager where
  accounts : List (ClientId × Account)
  tx_cache : List (TransactionId × TxCacheEntry)
  deriving Repr, DecidableEq

/-- `AccountManager::new`. -/
def AccountManager.new : AccountManager := { accounts := [], tx_cache := [] }

/-- `AccountManager::accounts`: the snapshot of all (client, account) pairs. -/
def AccountManager.accountsList (s : AccountManager) :
    List (ClientId × Account) := s.accounts

/-- `AccountManager::deposit`: `entry(client_id).or_default().deposit(amount)`,
then insert (possibly overwriting) the history entry. -/
def AccountManager.deposit (s : AccountManager) (tx_id : TransactionId)
    (client_id : ClientId) (amount : ℚ) : AccountManager :=
  let account := ((List.lookup client_id s.accounts).getD Account.new).deposit amount
  { accounts := listUpdate client_id account s.accounts,
    tx_cache := listUpdate tx_id (TxCacheEntry.new client_id amount) s.tx_cache }

/-- `AccountManager::withdraw`.  Note that `entry(client_id).or_default()`
inserts a fresh default account even when the withdrawal then fails. -/
def AccountManager.withdraw (s : AccountManager) (client_id : ClientId)
    (amount : ℚ) : AccountManager × Except AccountManagerError Unit :=
  let account := (List.lookup client_id s.accounts).getD Account.new
  match account.withdraw amount with
  | .error e =>
    ({ s with accounts := listUpdate client_id account s.accounts }, .error (.Account e))
  | .ok a =>
    ({ s with accounts := listUpdate client_id a s.accounts }, .ok ())

/-- `AccountManager::dispute`.  After the three checks pass, the entry's
`disputed` flag is set to `Account::dispute(..).is_ok()` and the call returns
`Ok(())` regardless of that account-level outcome. -/
def AccountManager.dispute (s : AccountManager) (tx_id : TransactionId)
    (client_id : ClientId) : AccountManager × Except AccountManagerError Unit :=
  match List.lookup tx_id s.tx_cache with
  | none => (s, .error (.TransactionNotFound tx_id))
  | some tx =>
    match check_authorization tx client_id with
    | .error e => (s, .error e)
    | .ok _ =>
      match check_undisputed tx tx_id with
      | .error e => (s, .error e)
      | .ok _ =>
        let account := (List.lookup client_id s.accounts).getD Account.new
        match account.dispute tx.amount with
        | .ok a =>
          ({ accounts := listUpdate client_id a s.accounts,
             tx_cache := listUpdate tx_id { tx with disputed := true } s.tx_cache },
           .ok ())
        | .error _ =>
          ({ accounts := listUpdate client_id account s.accounts,
             tx_cache := listUpdate tx_id { tx with disputed := false } s.tx_cache },
           .ok ())

/-- `AccountManager::resolve`. -/
def AccountManager.resolve (s : AccountManager) (tx_id : TransactionId)
    (client_id : ClientId) : AccountManager × Except AccountManagerError Unit :=
  match List.lookup tx_id s.tx_cache with
  | none => (s, .error (.TransactionNotFound tx_id))
  | some tx =>
    match check_authorization tx client_id with
    | .error e => (s, .error e)
    | .ok _ =>
      match check_disputed tx tx_id with
      | .error e => (s, .error e)
      | .ok _ =>
        let account := ((List.lookup client_id s.accounts).getD Account.new).resolve tx.amount
        ({ accounts := listUpdate client_id account s.accounts,
           tx_cache := listUpdate tx_id { tx with disputed := false } s.tx_cache },
         .ok ())

/-- `AccountManager::chargeback`: on success the history entry is removed. -/
def AccountManager.chargeback (s : AccountManager) (tx_id : TransactionId)
    (client_id : ClientId) : AccountManager × Except AccountManagerError Unit :=
  match List.lookup tx_id s.tx_cache with
  | none => (s, .error (.TransactionNotFound tx_id))
  | some tx =>
    match check_authorization tx client_id with
    | .error e => (s, .error e)
    | .ok _ =>
      match check_disputed tx tx_id with
      | .error e => (s, .error e)
      | .ok _ =>
        let account := ((List.lookup client_id s.accounts).getD Account.new).chargeback tx.amount
        ({ accounts := listUpdate client_id account s.accounts,
           tx_cache := s.tx_cache.filter (fun p => p.1 != tx_id) },
         .ok ())

/-- `enum Action` from `src/types.rs`. -/
inductive Action where
  | Deposit
  | Withdrawal
  | Dispute
  | Resolve
  | Chargeback
  deriving Repr, DecidableEq

/-- `struct Transaction` from `src/types.rs`: one parsed input record. -/
structure Transaction where
  action : Action
  client_id : ClientId
  id : TransactionId
  amount : Option ℚ
  deriving Repr, DecidableEq

/-- `process_transaction` from `src/account_manager.rs`: the dispatcher.
Deposit/withdrawal with a missing amount are silent no-ops. -/
def process_transaction (s : AccountManager) (tx : Transaction) :
    AccountManager × Except AccountManagerError Unit :=
  match tx.action with
  | .Deposit =>
    match tx.amount with
    | some amount => (s.deposit tx.id tx.client_id amount, .ok ())
    | none => (s, .ok ())
  | .Withdrawal =>
    match tx.amount with
    | some amount => s.withdraw tx.client_id amount
    | none => (s, .ok ())
  | .Dispute => s.dispute tx.id tx.client_id
  | .Resolve => s.resolve tx.id tx.client_id
  | .Chargeback => s.chargeback tx.id tx.client_id

/-- The driver loop of `main.rs`: dispatch each record in order, discarding
per-record errors. -/
def processAll (s : AccountManager) (txs : List Transaction) : AccountManager :=
  txs.foldl (fun st tx => (process_transaction st tx).1) s

/-- The available balance the ledger reports for client `c` (0 for an absent
account, matching `Account::default`). -/
def availableOf (s : AccountManager) (c : ClientId) : ℚ :=
  ((List.lookup c s.accounts).getD Account.new).available

/-- The held (disputed) balance the ledger reports for client `c`. -/
def heldOf (s : AccountManager) (c : ClientId) : ℚ :=
  ((List.lookup c s.accounts).getD Account.new).disputed

/-- The total (available + held) of client `c`. -/
def totalOf (s : AccountManager) (c : ClientId) : ℚ :=
  ((List.lookup c s.accounts).getD Account.new).total

/-- The lock flag of client `c` (false for an absent account). -/
def lockedOf (s : AccountManager) (c : ClientId) : Bool :=
  ((List.lookup c s.accounts).getD Account.new).locked

/-- A ledger-level dispute of `tx_id` by `client_id` "succeeds" (moves funds
to held) iff the history entry exists, is owned by the client, is undisputed,
and the account-level dispute passes its checks.  This is exactly the
condition under which `AccountManager::dispute` sets the entry's flag. -/
def disputeSucceeds (s : AccountManager) (tx_id : TransactionId)
    (client_id : ClientId) : Bool :=
  match List.lookup tx_id s.tx_cache with
  | none => false
  | some tx =>
    tx.client_id == client_id && !tx.disputed &&
      (match ((List.lookup client_id s.accounts).getD Account.new).dispute tx.amount with
       | .ok _ => true
       | .error _ => false)

/-! ## Association-list lemmas -/

theorem lookup_listUpdate_self {β : Type} (k : ℕ) (v : β) (l : List (ℕ × β)) :
    List.lookup k (listUpdate k v l) = some v := by
  induction l with
  | nil => simp [listUpdate, List.lookup]
  | cons p ps ih =>
    obtain ⟨pk, pv⟩ := p
    by_cases h : pk = k
    · simp [listUpdate, h, List.lookup]
    · simp only [listUpdate, h, if_false, List.lookup]
      have : (k == pk) = false := by simp [Ne.symm h]
      simp [this, ih]

theorem lookup_listUpdate_ne {β : Type} {j k : ℕ} (v : β) (l : List (ℕ × β))
    (h : j ≠ k) : List.lookup j (listUpdate k v l) = List.lookup j l := by
  induction l with
  | nil =>
    have : (j == k) = false := by simp [h]
    simp [listUpdate, List.lookup, this]
  | cons p ps ih =>
    obtain ⟨pk, pv⟩ := p
    by_cases hpk : pk = k
    · subst hpk
      simp only [listUpdate, if_true, List.lookup]
      have : (j == pk) = false := by simp [h]
      simp [this]
    · simp only [listUpdate, hpk, if_false, List.lookup]
      by_cases hj : j = pk
      · simp [hj]
      · have : (j == pk) = false := by simp [hj]
        simp [this, ih]

theorem mem_listUpdate {β : Type} {k : ℕ} {v : β} {l : List (ℕ × β)}
    {p : ℕ × β} (h : p ∈ listUpdate k v l) : p ∈ l ∨ p = (k, v) := by
  induction l with
  | nil => simp [listUpdate] at h; simp [h]
  | cons q qs ih =>
    by_cases hq : q.1 = k
    · simp only [listUpdate, hq, if_true] at h
      rcases List.mem_cons.mp h with h | h
      · right; exact h
      · left; exact List.mem_cons_of_mem _ h
    · simp only [listUpdate, hq, if_false] at h
      rcases List.mem_cons.mp h with h | h
      · left; simp [h]
      · rcases ih h with h | h
        · left; exact List.mem_cons_of_mem _ h
        · right; exact h

theorem lookup_mem {β : Type} {k : ℕ} {v : β} {l : List (ℕ × β)}
    (h : List.lookup k l = some v) : (k, v) ∈ l := by
  induction l with
  | nil => simp [List.lookup] at h
  | cons p ps ih =>
    obtain ⟨pk, pv⟩ := p
    by_cases hk : k = pk
    · subst hk
      simp only [List.lookup, beq_self_eq_true] at h
      simp at h
      simp [h]
    · have : (k == pk) = false := by simp [hk]
      simp only [List.lookup, this] at h
      exact List.mem_cons_of_mem _ (ih h)

theorem lookup_filterKey_ne {β : Type} {j k : ℕ} (l : List (ℕ × β))
    (h : j ≠ k) :
    List.lookup j (l.filter (fun p => p.1 != k)) = List.lookup j l := by
  induction l with
  | nil => simp
  | cons p ps ih =>
    obtain ⟨pk, pv⟩ := p
    by_cases hpk : pk = k
    · subst hpk
      have hb : (pk != pk) = false := by simp
      have hl : (j == pk) = false := by simp [h]
      simp [List.filter, hb, List.lookup, hl, ih]
    · have hb : (pk != k) = true := by simp [hpk]
      by_cases hj : j = pk
      · subst hj
        simp [List.filter, hb, List.lookup]
      · have hl : (j == pk) = false := by simp [hj]
        simp [List.filter, hb, List.lookup, hl, ih]

theorem lookup_filterKey_self {β : Type} (k : ℕ) (l : List (ℕ × β)) :
    List.lookup k (l.filter (fun p => p.1 != k)) = none := by
  induction l with
  | nil => simp
  | cons p ps ih =>
    obtain ⟨pk, pv⟩ := p
    by_cases hpk : pk = k
    · have hb : (pk != k) = false := by simp [hpk]
      simp [List.filter, hb, ih]
    · have hb : (pk != k) = true := by simp [hpk]
      have hl : (k == pk) = false := by simp [Ne.symm hpk]
      simp [List.filter, hb, List.lookup, hl, ih]

/-- Unfolding `processAll` one record at a time. -/
theorem processAll_cons (s : AccountManager) (tx : Transaction)
    (txs : List Transaction) :
    processAll s (tx :: txs) = processAll (process_transaction s tx).1 txs := rfl

theorem processAll_nil (s : AccountManager) : processAll s [] = s := rfl

/-- Invariant preservation along a run, for a per-step preservation lemma. -/
theorem processAll_inv (P : AccountManager → Prop) (pred : Transaction → Prop)
    (step : ∀ s tx, P s → pred tx → P (process_transaction s tx).1) :
    ∀ txs s, P s → (∀ tx ∈ txs, pred tx) → P (processAll s txs) := by
  intro txs
  induction txs with
  | nil => intro s h _; exact h
  | cons tx txs ih =>
    intro s h hall
    rw [processAll_cons]
    exact ih _ (step _ _ h (hall tx (List.mem_cons_self tx txs)))
      (fun t ht => hall t (List.mem_cons_of_mem tx ht))

/-! ## C9: the reference scenario -/

/-- The record sequence of the reference scenario (claim C9). -/
def c9_records : List Transaction :=
  [⟨.Deposit, 1, 1, some 1⟩, ⟨.Deposit, 2, 2, some 2⟩, ⟨.Deposit, 1, 3, some 2⟩,
   ⟨.Withdrawal, 1, 4, some 1.5⟩, ⟨.Withdrawal, 2, 5, some 3⟩,
   ⟨.Dispute, 1, 1, none⟩, ⟨.Dispute, 2, 2, none⟩, ⟨.Dispute, 2, 2, none⟩,
   ⟨.Dispute, 2, 1, none⟩, ⟨.Resolve, 1, 1, none⟩, ⟨.Chargeback, 2, 2, none⟩]

/-- C9: dispatching the reference scenario against a fresh ledger, discarding
per-record errors, yields exactly two accounts: client 1 with available = 1.5,
held = 0, total = 1.5, unlocked; client 2 with available = 0, held = 0,
total = 0, locked. -/
theorem c9_reference_scenario :
    (processAll AccountManager.new c9_records).accountsList =
      [(1, { available := 1.5, disputed := 0, locked := false }),
       (2, { available := 0, disputed := 0, locked := true })] ∧
    totalOf (processAll AccountManager.new c9_records) 1 = 1.5 ∧
    totalOf (processAll AccountManager.new c9_records) 2 = 0 := by
  have hacc : (processAll AccountManager.new c9_records).accounts =
      [(1, { available := 1.5, disputed := 0, locked := false }),
       (2, { available := 0, disputed := 0, locked := true })] := ?_
  · refine ⟨hacc, ?_, ?_⟩
    · simp [totalOf, hacc, List.lookup, Account.total]
    · simp [totalOf, hacc, List.lookup, Account.total]
  have e1 : (process_transaction AccountManager.new ⟨.Deposit, 1, 1, some 1⟩).1 =
      (⟨[(1, ⟨1, 0, false⟩)], [(1, ⟨1, 1, false⟩)]⟩ : AccountManager) := by
    simp [process_transaction, AccountManager.deposit, AccountManager.new,
      Account.new, Account.deposit, listUpdate, TxCacheEntry.new, List.lookup]
  have e2 : (process_transaction
      (⟨[(1, ⟨1, 0, false⟩)], [(1, ⟨1, 1, false⟩)]⟩ : AccountManager)
      ⟨.Deposit, 2, 2, some 2⟩).1 =
      (⟨[(1, ⟨1, 0, false⟩), (2, ⟨2, 0, false⟩)],
        [(1, ⟨1, 1, false⟩), (2, ⟨2, 2, false⟩)]⟩ : AccountManager) := by
    simp [process_transaction, AccountManager.deposit,
      Account.new, Account.deposit, listUpdate, TxCacheEntry.new, List.lookup]
  have e3 : (process_transaction
      (⟨[(1, ⟨1, 0, false⟩), (2, ⟨2, 0, false⟩)],
        [(1, ⟨1, 1, false⟩), (2, ⟨2, 2, false⟩)]⟩ : AccountManager)
      ⟨.Deposit, 1, 3, some 2⟩).1 =
      (⟨[(1, ⟨3, 0, false⟩), (2, ⟨2, 0, false⟩)],
        [(1, ⟨1, 1, false⟩), (2, ⟨2, 2, false⟩), (3, ⟨1, 2, false⟩)]⟩ : AccountManager) := by
    simp [process_transaction, AccountManager.deposit,
      Account.new, Account.deposit, listUpdate, TxCacheEntry.new, List.lookup]
    all_goals norm_num
  have e4 : (process_transaction
      (⟨[(1, ⟨3, 0, false⟩), (2, ⟨2, 0, false⟩)],
        [(1, ⟨1, 1, false⟩), (2, ⟨2, 2, false⟩), (3, ⟨1, 2, false⟩)]⟩ : AccountManager)
      ⟨.Withdrawal, 1, 4, some 1.5⟩).1 =
      (⟨[(1, ⟨1.5, 0, false⟩), (2, ⟨2, 0, false⟩)],
        [(1, ⟨1, 1, false⟩), (2, ⟨2, 2, false⟩), (3, ⟨1, 2, false⟩)]⟩ : AccountManager) := by
    simp [process_transaction, AccountManager.withdraw, Account.new,
      Account.withdraw, Account.check_locked, Account.check_sufficient_funds,
      listUpdate, List.lookup]
    all_goals norm_num
  have e5 : (process_transaction
      (⟨[(1, ⟨1.5, 0, false⟩), (2, ⟨2, 0, false⟩)],
        [(1, ⟨1, 1, false⟩), (2, ⟨2, 2, false⟩), (3, ⟨1, 2, false⟩)]⟩ : AccountManager)
      ⟨.Withdrawal, 2, 5, some 3⟩).1 =
      (⟨[(1, ⟨1.5, 0, false⟩), (2, ⟨2, 0, false⟩)],
        [(1, ⟨1, 1, false⟩), (2, ⟨2, 2, false⟩), (3, ⟨1, 2, false⟩)]⟩ : AccountManager) := by
    simp [process_transaction, AccountManager.withdraw, Account.new,
      Account.withdraw, Account.check_locked, Account.check_sufficient_funds,
      listUpdate, List.lookup]
    all_goals norm_num
  have e6 : (process_transaction
      (⟨[(1, ⟨1.5, 0, false⟩), (2, ⟨2, 0, false⟩)],
        [(1, ⟨1, 1, false⟩), (2, ⟨2, 2, false⟩), (3, ⟨1, 2, false⟩)]⟩ : AccountManager)
      ⟨.Dispute, 1, 1, none⟩).1 =
      (⟨[(1, ⟨0.5, 1, false⟩), (2, ⟨2, 0, false⟩)],
        [(1, ⟨1, 1, true⟩), (2, ⟨2, 2, false⟩), (3, ⟨1, 2, false⟩)]⟩ : AccountManager) := by
    simp [process_transaction, AccountManager.dispute, Account.new,
      Account.dispute, Account.check_locked, Account.check_sufficient_funds,
      check_authorization, check_undisputed, listUpdate, List.lookup]
    all_goals norm_num
  have e7 : (process_transaction
      (⟨[(1, ⟨0.5, 1, false⟩), (2, ⟨2, 0, false⟩)],
        [(1, ⟨1, 1, true⟩), (2, ⟨2, 2, false⟩), (3, ⟨1, 2, false⟩)]⟩ : AccountManager)
      ⟨.Dispute, 2, 2, none⟩).1 =
      (⟨[(1, ⟨0.5, 1, false⟩), (2, ⟨0, 2, false⟩)],
        [(1, ⟨1, 1, true⟩), (2, ⟨2, 2, true⟩), (3, ⟨1, 2, false⟩)]⟩ : AccountManager) := by
    simp [process_transaction, AccountManager.dispute, Account.new,
      Account.dispute, Account.check_locked, Account.check_sufficient_funds,
      check_authorization, check_undisputed, listUpdate, List.lookup]
  have e8 : (process_transaction
      (⟨[(1, ⟨0.5, 1, false⟩), (2, ⟨0, 2, false⟩)],
        [(1, ⟨1, 1, true⟩), (2, ⟨2, 2, true⟩), (3, ⟨1, 2, false⟩)]⟩ : AccountManager)
      ⟨.Dispute, 2, 2, none⟩).1 =
      (⟨[(1, ⟨0.5, 1, false⟩), (2, ⟨0, 2, false⟩)],
        [(1, ⟨1, 1, true⟩), (2, ⟨2, 2, true⟩), (3, ⟨1, 2, false⟩)]⟩ : AccountManager) := by
    simp [process_transaction, AccountManager.dispute,
      check_authorization, check_undisputed, List.lookup]
  have e9 : (process_transaction
      (⟨[(1, ⟨0.5, 1, false⟩), (2, ⟨0, 2, false⟩)],
        [(1, ⟨1, 1, true⟩), (2, ⟨2, 2, true⟩), (3, ⟨1, 2, false⟩)]⟩ : AccountManager)
      ⟨.Dispute, 2, 1, none⟩).1 =
      (⟨[(1, ⟨0.5, 1, false⟩), (2, ⟨0, 2, false⟩)],
        [(1, ⟨1, 1, true⟩), (2, ⟨2, 2, true⟩), (3, ⟨1, 2, false⟩)]⟩ : AccountManager) := by
    simp [process_transaction, AccountManager.dispute,
      check_authorization, check_undisputed, List.lookup]
  have e10 : (process_transaction
      (⟨[(1, ⟨0.5, 1, false⟩), (2, ⟨0, 2, false⟩)],
        [(1, ⟨1, 1, true⟩), (2, ⟨2, 2, true⟩), (3, ⟨1, 2, false⟩)]⟩ : AccountManager)
      ⟨.Resolve, 1, 1, none⟩).1 =
      (⟨[(1, ⟨1.5, 0, false⟩), (2, ⟨0, 2, false⟩)],
        [(1, ⟨1, 1, false⟩), (2, ⟨2, 2, true⟩), (3, ⟨1, 2, false⟩)]⟩ : AccountManager) := by
    simp [process_transaction, AccountManager.resolve, Account.new,
      Account.resolve, check_authorization, check_disputed, listUpdate, List.lookup]
    all_goals norm_num
  have e11 : (process_transaction
      (⟨[(1, ⟨1.5, 0, false⟩), (2, ⟨0, 2, false⟩)],
        [(1, ⟨1, 1, false⟩), (2, ⟨2, 2, true⟩), (3, ⟨1, 2, false⟩)]⟩ : AccountManager)
      ⟨.Chargeback, 2, 2, none⟩).1 =
      (⟨[(1, ⟨1.5, 0, false⟩), (2, ⟨0, 0, true⟩)],
        [(1, ⟨1, 1, false⟩), (3, ⟨1, 2, false⟩)]⟩ : AccountManager) := by
    simp [process_transaction, AccountManager.chargeback, Account.new,
      Account.chargeback, check_authorization, check_disputed, listUpdate,
      List.lookup, List.filter]
  show (processAll AccountManager.new c9_records).accounts = _
  rw [c9_records, processAll_cons, e1, processAll_cons, e2, processAll_cons, e3,
    processAll_cons, e4, processAll_cons, e5, processAll_cons, e6,
    processAll_cons, e7, processAll_cons, e8, processAll_cons, e9,
    processAll_cons, e10, processAll_cons, e11, processAll_nil]

/-! ## C7: authorization -/

/-- C7: a dispute, resolve, or chargeback of a history entry owned by client
A, issued by client B ≠ A, fails with `Unauthorized {client_id := B,
owner_id := A}` and leaves the whole ledger state (in particular both
accounts) unchanged. -/
theorem c7_authorization (s : AccountManager) (tx_id : TransactionId)
    (A B : ClientId) (e : TxCacheEntry)
    (he : List.lookup tx_id s.tx_cache = some e)
    (hA : e.client_id = A) (hB : B ≠ A) :
    s.dispute tx_id B = (s, .error (.Unauthorized B A)) ∧
    s.resolve tx_id B = (s, .error (.Unauthorized B A)) ∧
    s.chargeback tx_id B = (s, .error (.Unauthorized B A)) := by
  subst hA
  have hAB : e.client_id ≠ B := fun h => hB h.symm
  refine ⟨?_, ?_, ?_⟩ <;>
    simp [AccountManager.dispute, AccountManager.resolve,
      AccountManager.chargeback, he, check_authorization, hAB]

theorem c7_authorization_witness :
    (⟨[], [(5, ⟨1, 7, false⟩)]⟩ : AccountManager).dispute 5 2 =
      ((⟨[], [(5, ⟨1, 7, false⟩)]⟩ : AccountManager),
        .error (.Unauthorized 2 1)) ∧
    (⟨[], [(5, ⟨1, 7, false⟩)]⟩ : AccountManager).resolve 5 2 =
      ((⟨[], [(5, ⟨1, 7, false⟩)]⟩ : AccountManager),
        .error (.Unauthorized 2 1)) ∧
    (⟨[], [(5, ⟨1, 7, false⟩)]⟩ : AccountManager).chargeback 5 2 =
      ((⟨[], [(5, ⟨1, 7, false⟩)]⟩ : AccountManager),
        .error (.Unauthorized 2 1)) :=
  c7_authorization ⟨[], [(5, ⟨1, 7, false⟩)]⟩ 5 1 2 ⟨1, 7, false⟩ rfl rfl
    (by decide)

/-! ## C10: failed operations on unknown clients create accounts -/

/-- C10: a withdrawal by a client with no account, of a positive amount,
fails with `InsufficientFunds {requested := amount, available := 0}` and
leaves behind a fresh zero-balance unlocked account that appears in the
accounts snapshot; dispute, resolve, and chargeback likewise create the
target account if it is absent when they reach the account mutation. -/
theorem c10_absent_client_account_creation :
    (∀ (s : AccountManager) (c : ClientId) (a : ℚ),
      List.lookup c s.accounts = none → 0 < a →
      (s.withdraw c a).2 = .error (.Account (.InsufficientFunds a 0)) ∧
      List.lookup c (s.withdraw c a).1.accounts = some Account.new ∧
      (c, Account.new) ∈ (s.withdraw c a).1.accountsList ∧
      (s.withdraw c a).1.tx_cache = s.tx_cache) ∧
    (∀ (s : AccountManager) (tx_id : TransactionId) (c : ClientId)
      (e : TxCacheEntry),
      List.lookup tx_id s.tx_cache = some e → e.client_id = c →
      e.disputed = false → List.lookup c s.accounts = none →
      (List.lookup c (s.dispute tx_id c).1.accounts).isSome = true) ∧
    (∀ (s : AccountManager) (tx_id : TransactionId) (c : ClientId)
      (e : TxCacheEntry),
      List.lookup tx_id s.tx_cache = some e → e.client_id = c →
      e.disputed = true → List.lookup c s.accounts = none →
      (List.lookup c (s.resolve tx_id c).1.accounts).isSome = true) ∧
    (∀ (s : AccountManager) (tx_id : TransactionId) (c : ClientId)
      (e : TxCacheEntry),
      List.lookup tx_id s.tx_cache = some e → e.client_id = c →
      e.disputed = true → List.lookup c s.accounts = none →
      (List.lookup c (s.chargeback tx_id c).1.accounts).isSome = true) := by
  refine ⟨?_, ?_, ?_, ?_⟩
  · intro s c a hc ha
    have hwe : Account.new.withdraw a = .error (.InsufficientFunds a 0) := by
      simp [Account.withdraw, Account.check_locked,
        Account.check_sufficient_funds, Account.new, ha]
    refine ⟨?_, ?_, ?_, ?_⟩ <;>
      simp [AccountManager.withdraw, AccountManager.accountsList, hc, hwe,
        lookup_listUpdate_self]
    exact lookup_mem (lookup_listUpdate_self c Account.new s.accounts)
  · intro s tx_id c e he hcl hd hc
    subst hcl
    simp only [AccountManager.dispute, he, check_authorization,
      check_undisputed, hd, if_neg, ite_false]
    simp only [ne_eq, not_true_eq_false, if_false, Bool.false_eq_true]
    rcases hda : ((List.lookup e.client_id s.accounts).getD Account.new).dispute
        e.amount with e' | a'
    · simp [hda, lookup_listUpdate_self]
    · simp [hda, lookup_listUpdate_self]
  · intro s tx_id c e he hcl hd hc
    subst hcl
    simp [AccountManager.resolve, he, check_authorization, check_disputed, hd,
      lookup_listUpdate_self]
  · intro s tx_id c e he hcl hd hc
    subst hcl
    simp [AccountManager.chargeback, he, check_authorization, check_disputed,
      hd, lookup_listUpdate_self]

theorem c10_absent_client_account_creation_witness :
    (AccountManager.new.withdraw 3 2).2 =
      .error (.Account (.InsufficientFunds 2 0)) ∧
    List.lookup 3 (AccountManager.new.withdraw 3 2).1.accounts =
      some Account.new ∧
    (3, Account.new) ∈ (AccountManager.new.withdraw 3 2).1.accountsList ∧
    (AccountManager.new.withdraw 3 2).1.tx_cache = AccountManager.new.tx_cache :=
  c10_absent_client_account_creation.1 AccountManager.new 3 2 rfl (by norm_num)

/-! ## C4: atomicity of rejection -/

/-- C4 counterexample: a withdrawal by a client with no account returns an
error, yet the accounts map is changed by the call (a fresh default account
has been inserted), so rejection is not atomic for the whole ledger state. -/
theorem c4_counterexample :
    (AccountManager.new.withdraw 1 1).2 =
      .error (.Account (.InsufficientFunds 1 0)) ∧
    (AccountManager.new.withdraw 1 1).1 ≠ AccountManager.new := by
  have hwe : Account.new.withdraw 1 = .error (.InsufficientFunds 1 0) := by
    simp [Account.withdraw, Account.check_locked,
      Account.check_sufficient_funds, Account.new]
  constructor
  · simp [AccountManager.withdraw, AccountManager.new, hwe]
  · simp [AccountManager.withdraw, AccountManager.new, hwe, listUpdate]

/-- C4 amended: an error returned by dispute, resolve, or chargeback leaves
the whole ledger state exactly unchanged; an error returned by withdraw
leaves the history and every existing account unchanged, except that a
missing account for the requesting client is created as a fresh default
account (the only mutation). -/
theorem c4_amended_atomic_rejection :
    (∀ (s : AccountManager) (tx_id : TransactionId) (c : ClientId)
      (err : AccountManagerError),
      (s.dispute tx_id c).2 = .error err → (s.dispute tx_id c).1 = s) ∧
    (∀ (s : AccountManager) (tx_id : TransactionId) (c : ClientId)
      (err : AccountManagerError),
      (s.resolve tx_id c).2 = .error err → (s.resolve tx_id c).1 = s) ∧
    (∀ (s : AccountManager) (tx_id : TransactionId) (c : ClientId)
      (err : AccountManagerError),
      (s.chargeback tx_id c).2 = .error err → (s.chargeback tx_id c).1 = s) ∧
    (∀ (s : AccountManager) (c : ClientId) (a : ℚ) (err : AccountManagerError),
      (s.withdraw c a).2 = .error err →
      (s.withdraw c a).1.tx_cache = s.tx_cache ∧
      (∀ c', c' ≠ c →
        List.lookup c' (s.withdraw c a).1.accounts = List.lookup c' s.accounts) ∧
      List.lookup c (s.withdraw c a).1.accounts =
        some ((List.lookup c s.accounts).getD Account.new)) := by
  refine ⟨?_, ?_, ?_, ?_⟩
  · intro s tx_id c err h
    rcases he : List.lookup tx_id s.tx_cache with _ | e
    · simp [AccountManager.dispute, he]
    · rcases ha : check_authorization e c with e' | u
      · simp [AccountManager.dispute, he, ha]
      · rcases hu : check_undisputed e tx_id with e' | u'
        · simp [AccountManager.dispute, he, ha, hu]
        · exfalso
          rcases hd : ((List.lookup c s.accounts).getD Account.new).dispute
              e.amount with e'' | a'' <;>
            simp [AccountManager.dispute, he, ha, hu, hd] at h
  · intro s tx_id c err h
    rcases he : List.lookup tx_id s.tx_cache with _ | e
    · simp [AccountManager.resolve, he]
    · rcases ha : check_authorization e c with e' | u
      · simp [AccountManager.resolve, he, ha]
      · rcases hu : check_disputed e tx_id with e' | u'
        · simp [AccountManager.resolve, he, ha, hu]
        · exfalso; simp [AccountManager.resolve, he, ha, hu] at h
  · intro s tx_id c err h
    rcases he : List.lookup tx_id s.tx_cache with _ | e
    · simp [AccountManager.chargeback, he]
    · rcases ha : check_authorization e c with e' | u
      · simp [AccountManager.chargeback, he, ha]
      · rcases hu : check_disputed e tx_id with e' | u'
        · simp [AccountManager.chargeback, he, ha, hu]
        · exfalso; simp [AccountManager.chargeback, he, ha, hu] at h
  · intro s c a err h
    rcases hw : ((List.lookup c s.accounts).getD Account.new).withdraw a
        with e' | a'
    · refine ⟨?_, ?_, ?_⟩
      · simp [AccountManager.withdraw, hw]
      · intro c' hc'
        simp [AccountManager.withdraw, hw, lookup_listUpdate_ne _ _ hc']
      · simp [AccountManager.withdraw, hw, lookup_listUpdate_self]
    · exfalso; simp [AccountManager.withdraw, hw] at h

theorem c4_amended_atomic_rejection_witness :
    ((⟨[], []⟩ : AccountManager).dispute 9 4).1 = (⟨[], []⟩ : AccountManager) :=
  c4_amended_atomic_rejection.1 ⟨[], []⟩ 9 4 (.TransactionNotFound 9) rfl

/-! ## C5: dispute failure is swallowed, not surfaced -/

/-- C5 counterexample: after deposit(client 1, tx 1, 1) and a withdrawal of
the full amount, a dispute of tx 1 by client 1 passes the ledger-level checks
but fails at the Account level (available = 0 < 1); the entry stays
undisputed as the claim says, yet the ledger call returns `Ok(())` rather
than surfacing the Account error. -/
theorem c5_counterexample :
    processAll AccountManager.new
      [⟨.Deposit, 1, 1, some 1⟩, ⟨.Withdrawal, 1, 2, some 1⟩] =
      (⟨[(1, ⟨0, 0, false⟩)], [(1, ⟨1, 1, false⟩)]⟩ : AccountManager) ∧
    ((⟨0, 0, false⟩ : Account).dispute 1 =
      .error (.InsufficientFunds 1 0)) ∧
    ((⟨[(1, ⟨0, 0, false⟩)], [(1, ⟨1, 1, false⟩)]⟩ : AccountManager).dispute
        1 1).2 = .ok () ∧
    List.lookup 1
      ((⟨[(1, ⟨0, 0, false⟩)], [(1, ⟨1, 1, false⟩)]⟩ : AccountManager).dispute
        1 1).1.tx_cache = some ⟨1, 1, false⟩ := by
  have hd : (⟨0, 0, false⟩ : Account).dispute 1 =
      .error (.InsufficientFunds 1 0) := by
    simp [Account.dispute, Account.check_locked, Account.check_sufficient_funds]
  have e1 : (process_transaction AccountManager.new ⟨.Deposit, 1, 1, some 1⟩).1 =
      (⟨[(1, ⟨1, 0, false⟩)], [(1, ⟨1, 1, false⟩)]⟩ : AccountManager) := by
    simp [process_transaction, AccountManager.deposit, AccountManager.new,
      Account.new, Account.deposit, listUpdate, TxCacheEntry.new, List.lookup]
  have e2 : (process_transaction
      (⟨[(1, ⟨1, 0, false⟩)], [(1, ⟨1, 1, false⟩)]⟩ : AccountManager)
      ⟨.Withdrawal, 1, 2, some 1⟩).1 =
      (⟨[(1, ⟨0, 0, false⟩)], [(1, ⟨1, 1, false⟩)]⟩ : AccountManager) := by
    simp [process_transaction, AccountManager.withdraw, Account.new,
      Account.withdraw, Account.check_locked, Account.check_sufficient_funds,
      listUpdate, List.lookup]
  refine ⟨?_, hd, ?_, ?_⟩
  · rw [processAll_cons, e1, processAll_cons, e2, processAll_nil]
  · simp [AccountManager.dispute, List.lookup, check_authorization,
      check_undisputed, Account.new, hd]
  · simp [AccountManager.dispute, List.lookup, check_authorization,
      check_undisputed, Account.new, hd, listUpdate]

/-- C5 amended: when the history entry exists, is owned by the requesting
client, and is not yet disputed, but the Account-level dispute fails, the
entry's `disputed` flag remains false and the ledger dispute call returns
success, discarding the Account error instead of surfacing it. -/
theorem c5_amended_dispute_swallows_error (s : AccountManager)
    (tx_id : TransactionId) (c : ClientId) (e : TxCacheEntry)
    (aerr : AccountError)
    (he : List.lookup tx_id s.tx_cache = some e)
    (hcl : e.client_id = c) (hd : e.disputed = false)
    (hfail : ((List.lookup c s.accounts).getD Account.new).dispute e.amount =
      .error aerr) :
    (s.dispute tx_id c).2 = .ok () ∧
    List.lookup tx_id (s.dispute tx_id c).1.tx_cache = some e := by
  subst hcl
  have hee : ({ e with disputed := false } : TxCacheEntry) = e := by
    cases e; simp_all
  constructor
  · simp [AccountManager.dispute, he, check_authorization, check_undisputed,
      hd, hfail]
  · simp [AccountManager.dispute, he, check_authorization, check_undisputed,
      hd, hfail, hee, lookup_listUpdate_self]

theorem c5_amended_dispute_swallows_error_witness :
    ((⟨[(1, ⟨0, 0, false⟩)], [(2, ⟨1, 1, false⟩)]⟩ : AccountManager).dispute
      2 1).2 = .ok () ∧
    List.lookup 2
      ((⟨[(1, ⟨0, 0, false⟩)], [(2, ⟨1, 1, false⟩)]⟩ : AccountManager).dispute
        2 1).1.tx_cache = some ⟨1, 1, false⟩ :=
  c5_amended_dispute_swallows_error
    ⟨[(1, ⟨0, 0, false⟩)], [(2, ⟨1, 1, false⟩)]⟩ 2 1 ⟨1, 1, false⟩
    (.InsufficientFunds 1 0) rfl rfl rfl
    (by simp [Account.dispute, Account.check_locked,
      Account.check_sufficient_funds, List.lookup])

/-! ## C3: lock monotonicity -/

/-- A state update that only touches client `cid`, with a value that stays
locked when the old account of `c = cid` was locked, preserves `lockedOf`. -/
theorem lockedOf_listUpdate {s : AccountManager} {c cid : ClientId}
    {v : Account} (txc : List (TransactionId × TxCacheEntry))
    (hv : c = cid → v.locked = true) (hs : lockedOf s c = true) :
    lockedOf (⟨listUpdate cid v s.accounts, txc⟩ : AccountManager) c = true := by
  by_cases hc : c = cid
  · subst hc; simp [lockedOf, lookup_listUpdate_self, hv rfl]
  · simpa [lockedOf, lookup_listUpdate_ne _ _ hc] using hs

theorem lockedOf_deposit {s : AccountManager} {c : ClientId}
    (tx_id : TransactionId) (cid : ClientId) (a : ℚ)
    (h : lockedOf s c = true) : lockedOf (s.deposit tx_id cid a) c = true := by
  unfold AccountManager.deposit
  refine lockedOf_listUpdate _ (fun hc => ?_) h
  subst hc
  simpa [Account.deposit, lockedOf] using h

theorem lockedOf_withdraw {s : AccountManager} {c : ClientId}
    (cid : ClientId) (a : ℚ) (h : lockedOf s c = true) :
    lockedOf (s.withdraw cid a).1 c = true := by
  rcases hw : ((List.lookup cid s.accounts).getD Account.new).withdraw a
      with e | a'
  · simp only [AccountManager.withdraw, hw]
    exact lockedOf_listUpdate _ (fun hc => by subst hc; exact h) h
  · by_cases hc : c = cid
    · exfalso
      subst hc
      have hl : ((List.lookup c s.accounts).getD Account.new).locked = true := h
      simp [Account.withdraw, Account.check_locked, hl] at hw
    · simp only [AccountManager.withdraw, hw]
      exact lockedOf_listUpdate _ (fun hcc => absurd hcc hc) h

theorem lockedOf_dispute {s : AccountManager} {c : ClientId}
    (tx_id : TransactionId) (cid : ClientId) (h : lockedOf s c = true) :
    lockedOf (s.dispute tx_id cid).1 c = true := by
  rcases he : List.lookup tx_id s.tx_cache with _ | e
  · simpa [AccountManager.dispute, he] using h
  · rcases ha : check_authorization e cid with e' | u
    · simpa [AccountManager.dispute, he, ha] using h
    · rcases hu : check_undisputed e tx_id with e' | u'
      · simpa [AccountManager.dispute, he, ha, hu] using h
      · rcases hd : ((List.lookup cid s.accounts).getD Account.new).dispute
            e.amount with e'' | a''
        · simp only [AccountManager.dispute, he, ha, hu, hd]
          exact lockedOf_listUpdate _ (fun hc => by subst hc; exact h) h
        · by_cases hc : c = cid
          · exfalso
            subst hc
            have hl : ((List.lookup c s.accounts).getD Account.new).locked =
                true := h
            simp [Account.dispute, Account.check_locked, hl] at hd
          · simp only [AccountManager.dispute, he, ha, hu, hd]
            exact lockedOf_listUpdate _ (fun hcc => absurd hcc hc) h

theorem lockedOf_resolve {s : AccountManager} {c : ClientId}
    (tx_id : TransactionId) (cid : ClientId) (h : lockedOf s c = true) :
    lockedOf (s.resolve tx_id cid).1 c = true := by
  rcases he : List.lookup tx_id s.tx_cache with _ | e
  · simpa [AccountManager.resolve, he] using h
  · rcases ha : check_authorization e cid with e' | u
    · simpa [AccountManager.resolve, he, ha] using h
    · rcases hu : check_disputed e tx_id with e' | u'
      · simpa [AccountManager.resolve, he, ha, hu] using h
      · simp only [AccountManager.resolve, he, ha, hu]
        refine lockedOf_listUpdate _ (fun hc => ?_) h
        subst hc
        simpa [Account.resolve, lockedOf] using h

theorem lockedOf_chargeback {s : AccountManager} {c : ClientId}
    (tx_id : TransactionId) (cid : ClientId) (h : lockedOf s c = true) :
    lockedOf (s.chargeback tx_id cid).1 c = true := by
  rcases he : List.lookup tx_id s.tx_cache with _ | e
  · simpa [AccountManager.chargeback, he] using h
  · rcases ha : check_authorization e cid with e' | u
    · simpa [AccountManager.chargeback, he, ha] using h
    · rcases hu : check_disputed e tx_id with e' | u'
      · simpa [AccountManager.chargeback, he, ha, hu] using h
      · simp only [AccountManager.chargeback, he, ha, hu]
        exact lockedOf_listUpdate _ (fun hc => by simp [Account.chargeback]) h

/-- One dispatched record preserves a client's lock flag. -/
theorem lockedOf_step {s : AccountManager} {tx : Transaction} {c : ClientId}
    (h : lockedOf s c = true) :
    lockedOf (process_transaction s tx).1 c = true := by
  obtain ⟨act, cid, tid, amt⟩ := tx
  cases act with
  | Deposit =>
    cases amt with
    | none => exact h
    | some a => exact lockedOf_deposit tid cid a h
  | Withdrawal =>
    cases amt with
    | none => exact h
    | some a => exact lockedOf_withdraw cid a h
  | Dispute => exact lockedOf_dispute tid cid h
  | Resolve => exact lockedOf_resolve tid cid h
  | Chargeback => exact lockedOf_chargeback tid cid h

/-- C3: once `locked` is true for a client it stays true under every
subsequent sequence of dispatched records; no operation resets it. -/
theorem c3_lock_monotonicity (s : AccountManager) (txs : List Transaction)
    (c : ClientId) (h : lockedOf s c = true) :
    lockedOf (processAll s txs) c = true :=
  processAll_inv (fun st => lockedOf st c = true) (fun _ => True)
    (fun _ _ hP _ => lockedOf_step hP) txs s h (fun _ _ => trivial)

theorem c3_lock_monotonicity_witness :
    lockedOf
      (processAll (⟨[(1, ⟨0, 0, true⟩)], []⟩ : AccountManager)
        [⟨.Deposit, 1, 7, some 5⟩, ⟨.Withdrawal, 1, 8, some 1⟩]) 1 = true :=
  c3_lock_monotonicity ⟨[(1, ⟨0, 0, true⟩)], []⟩
    [⟨.Deposit, 1, 7, some 5⟩, ⟨.Withdrawal, 1, 8, some 1⟩] 1 rfl

/-! ## C6: idempotent removal after chargeback -/

/-- A record that is not a (non-void) deposit with identifier `tx_id` cannot
re-create a missing history entry for `tx_id`. -/
theorem txAbsent_step {s : AccountManager} {tx : Transaction}
    {tx_id : TransactionId}
    (h : List.lookup tx_id s.tx_cache = none)
    (htx : ¬(tx.action = .Deposit ∧ tx.id = tx_id ∧ tx.amount.isSome = true)) :
    List.lookup tx_id (process_transaction s tx).1.tx_cache = none := by
  obtain ⟨act, cid, tid, amt⟩ := tx
  cases act with
  | Deposit =>
    cases amt with
    | none => exact h
    | some a =>
      have hne : tid ≠ tx_id := by
        intro he; exact htx ⟨rfl, by simpa using he, by simp⟩
      simpa [process_transaction, AccountManager.deposit,
        lookup_listUpdate_ne _ _ (Ne.symm hne)] using h
  | Withdrawal =>
    cases amt with
    | none => exact h
    | some a =>
      rcases hw : ((List.lookup cid s.accounts).getD Account.new).withdraw a
          with e | a' <;>
        simpa [process_transaction, AccountManager.withdraw, hw] using h
  | Dispute =>
    by_cases hid : tid = tx_id
    · subst hid
      simp [process_transaction, AccountManager.dispute, h]
    · rcases he : List.lookup tid s.tx_cache with _ | e
      · simpa [process_transaction, AccountManager.dispute, he] using h
      · rcases ha : check_authorization e cid with e' | u
        · simpa [process_transaction, AccountManager.dispute, he, ha] using h
        · rcases hu : check_undisputed e tid with e' | u'
          · simpa [process_transaction, AccountManager.dispute, he, ha, hu]
              using h
          · rcases hd : ((List.lookup cid s.accounts).getD Account.new).dispute
                e.amount with e'' | a'' <;>
              simpa [process_transaction, AccountManager.dispute, he, ha, hu,
                hd, lookup_listUpdate_ne _ _ (Ne.symm hid)] using h
  | Resolve =>
    by_cases hid : tid = tx_id
    · subst hid
      simp [process_transaction, AccountManager.resolve, h]
    · rcases he : List.lookup tid s.tx_cache with _ | e
      · simpa [process_transaction, AccountManager.resolve, he] using h
      · rcases ha : check_authorization e cid with e' | u
        · simpa [process_transaction, AccountManager.resolve, he, ha] using h
        · rcases hu : check_disputed e tid with e' | u'
          · simpa [process_transaction, AccountManager.resolve, he, ha, hu]
              using h
          · simpa [process_transaction, AccountManager.resolve, he, ha, hu,
              lookup_listUpdate_ne _ _ (Ne.symm hid)] using h
  | Chargeback =>
    by_cases hid : tid = tx_id
    · subst hid
      simp [process_transaction, AccountManager.chargeback, h]
    · rcases he : List.lookup tid s.tx_cache with _ | e
      · simpa [process_transaction, AccountManager.chargeback, he] using h
      · rcases ha : check_authorization e cid with e' | u
        · simpa [process_transaction, AccountManager.chargeback, he, ha] using h
        · rcases hu : check_disputed e tid with e' | u'
          · simpa [process_transaction, AccountManager.chargeback, he, ha, hu]
              using h
          · simpa [process_transaction, AccountManager.chargeback, he, ha, hu,
              lookup_filterKey_ne _ (Ne.symm hid)] using h

/-- C6 amended: a successful chargeback removes the history entry for
`tx_id`; as long as no subsequent deposit record re-uses the identifier
`tx_id`, the entry stays absent along any run, and while it is absent every
dispute, resolve, or chargeback referencing `tx_id` fails with
`TransactionNotFound` (and leaves the state unchanged). -/
theorem c6_amended_idempotent_removal :
    (∀ (s : AccountManager) (tx_id : TransactionId) (c : ClientId),
      (s.chargeback tx_id c).2 = .ok () →
      List.lookup tx_id (s.chargeback tx_id c).1.tx_cache = none) ∧
    (∀ (s : AccountManager) (tx_id : TransactionId) (txs : List Transaction),
      List.lookup tx_id s.tx_cache = none →
      (∀ tx ∈ txs,
        ¬(tx.action = .Deposit ∧ tx.id = tx_id ∧ tx.amount.isSome = true)) →
      List.lookup tx_id (processAll s txs).tx_cache = none) ∧
    (∀ (s : AccountManager) (tx_id : TransactionId) (c : ClientId),
      List.lookup tx_id s.tx_cache = none →
      s.dispute tx_id c = (s, .error (.TransactionNotFound tx_id)) ∧
      s.resolve tx_id c = (s, .error (.TransactionNotFound tx_id)) ∧
      s.chargeback tx_id c = (s, .error (.TransactionNotFound tx_id))) := by
  refine ⟨?_, ?_, ?_⟩
  · intro s tx_id c hok
    rcases he : List.lookup tx_id s.tx_cache with _ | e
    · simp [AccountManager.chargeback, he] at hok
    · rcases ha : check_authorization e c with e' | u
      · simp [AccountManager.chargeback, he, ha] at hok
      · rcases hu : check_disputed e tx_id with e' | u'
        · simp [AccountManager.chargeback, he, ha, hu] at hok
        · simp [AccountManager.chargeback, he, ha, hu, lookup_filterKey_self]
  · intro s tx_id txs h hall
    exact processAll_inv
      (fun st => List.lookup tx_id st.tx_cache = none)
      (fun tx => ¬(tx.action = .Deposit ∧ tx.id = tx_id ∧
        tx.amount.isSome = true))
      (fun _ _ hP hpred => txAbsent_step hP hpred) txs s h hall
  · intro s tx_id c h
    exact ⟨by simp [AccountManager.dispute, h],
      by simp [AccountManager.resolve, h],
      by simp [AccountManager.chargeback, h]⟩

theorem c6_amended_idempotent_removal_witness :
    (⟨[], []⟩ : AccountManager).dispute 1 1 =
      ((⟨[], []⟩ : AccountManager), .error (.TransactionNotFound 1)) ∧
    (⟨[], []⟩ : AccountManager).resolve 1 1 =
      ((⟨[], []⟩ : AccountManager), .error (.TransactionNotFound 1)) ∧
    (⟨[], []⟩ : AccountManager).chargeback 1 1 =
      ((⟨[], []⟩ : AccountManager), .error (.TransactionNotFound 1)) :=
  c6_amended_idempotent_removal.2.2 ⟨[], []⟩ 1 1 rfl

/-- C6 counterexample: after a successful chargeback of tx 1, a deposit by
client 2 re-using identifier 1 re-creates the history entry, and the next
dispute referencing tx 1 returns `Ok(())` instead of failing with
`TransactionNotFound`. -/
theorem c6_counterexample :
    (processAll AccountManager.new
      [⟨.Deposit, 1, 1, some 1⟩, ⟨.Dispute, 1, 1, none⟩] =
      (⟨[(1, ⟨0, 1, false⟩)], [(1, ⟨1, 1, true⟩)]⟩ : AccountManager)) ∧
    ((⟨[(1, ⟨0, 1, false⟩)], [(1, ⟨1, 1, true⟩)]⟩ : AccountManager).chargeback
      1 1 = (⟨[(1, ⟨0, 0, true⟩)], []⟩, .ok ())) ∧
    ((⟨[(1, ⟨0, 0, true⟩)], []⟩ : AccountManager).deposit 1 2 1 =
      (⟨[(1, ⟨0, 0, true⟩), (2, ⟨1, 0, false⟩)],
        [(1, ⟨2, 1, false⟩)]⟩ : AccountManager)) ∧
    ((⟨[(1, ⟨0, 0, true⟩), (2, ⟨1, 0, false⟩)],
        [(1, ⟨2, 1, false⟩)]⟩ : AccountManager).dispute 1 2).2 = .ok () ∧
    ((⟨[(1, ⟨0, 0, true⟩), (2, ⟨1, 0, false⟩)],
        [(1, ⟨2, 1, false⟩)]⟩ : AccountManager).dispute 1 2).2 ≠
      .error (.TransactionNotFound 1) := by
  have e1 : (process_transaction AccountManager.new ⟨.Deposit, 1, 1, some 1⟩).1 =
      (⟨[(1, ⟨1, 0, false⟩)], [(1, ⟨1, 1, false⟩)]⟩ : AccountManager) := by
    simp [process_transaction, AccountManager.deposit, AccountManager.new,
      Account.new, Account.deposit, listUpdate, TxCacheEntry.new, List.lookup]
  have e2 : (process_transaction
      (⟨[(1, ⟨1, 0, false⟩)], [(1, ⟨1, 1, false⟩)]⟩ : AccountManager)
      ⟨.Dispute, 1, 1, none⟩).1 =
      (⟨[(1, ⟨0, 1, false⟩)], [(1, ⟨1, 1, true⟩)]⟩ : AccountManager) := by
    simp [process_transaction, AccountManager.dispute, Account.new,
      Account.dispute, Account.check_locked, Account.check_sufficient_funds,
      check_authorization, check_undisputed, listUpdate, List.lookup]
  refine ⟨?_, ?_, ?_, ?_, ?_⟩
  · rw [processAll_cons, e1, processAll_cons, e2, processAll_nil]
  · simp [AccountManager.chargeback, List.lookup, check_authorization,
      check_disputed, Account.chargeback, listUpdate, List.filter]
  · simp [AccountManager.deposit, List.lookup, Account.new, Account.deposit,
      listUpdate, TxCacheEntry.new]
  · simp [AccountManager.dispute, List.lookup, check_authorization,
      check_undisputed, Account.dispute, Account.check_locked,
      Account.check_sufficient_funds, Account.new]
  · simp [AccountManager.dispute, List.lookup, check_authorization,
      check_undisputed, Account.dispute, Account.check_locked,
      Account.check_sufficient_funds, Account.new]

/-! ## C8: dispute exclusivity -/

/-- Invariant for C8: the history entry for `tx_id`, if present, is marked
disputed. -/
def txDisputedOrGone (s : AccountManager) (tx_id : TransactionId) : Prop :=
  ∀ e, List.lookup tx_id s.tx_cache = some e → e.disputed = true

/-- A successful (fund-moving) dispute leaves the entry marked disputed. -/
theorem txDisputedOrGone_after_dispute {s : AccountManager}
    {tx_id : TransactionId} {c : ClientId}
    (h : disputeSucceeds s tx_id c = true) :
    txDisputedOrGone (s.dispute tx_id c).1 tx_id := by
  rcases he : List.lookup tx_id s.tx_cache with _ | e
  · simp [disputeSucceeds, he] at h
  · rcases hd : ((List.lookup c s.accounts).getD Account.new).dispute e.amount
        with e' | a'
    · simp [disputeSucceeds, he, hd] at h
    · simp only [disputeSucceeds, he, hd, Bool.and_eq_true, beq_iff_eq,
        Bool.not_eq_true'] at h
      obtain ⟨⟨hcl, hund⟩, -⟩ := h
      have hauth : check_authorization e c = .ok () := by
        simp [check_authorization, hcl]
      have hun : check_undisputed e tx_id = .ok () := by
        simp [check_undisputed, hund]
      intro e'' he''
      simp only [AccountManager.dispute, he, hauth, hun, hd,
        lookup_listUpdate_self] at he''
      cases he''
      rfl

/-- While the entry for `tx_id` is disputed-or-gone, a dispute of `tx_id`
cannot move funds. -/
theorem disputeSucceeds_false_of_txDisputedOrGone {s : AccountManager}
    {tx_id : TransactionId} (c : ClientId)
    (h : txDisputedOrGone s tx_id) : disputeSucceeds s tx_id c = false := by
  rcases he : List.lookup tx_id s.tx_cache with _ | e
  · simp [disputeSucceeds, he]
  · simp [disputeSucceeds, he, h e he]

/-- The C8 invariant is preserved by every record except a resolve of
`tx_id` or a deposit re-recording `tx_id`. -/
theorem txDisputedOrGone_step {s : AccountManager} {tx : Transaction}
    {tx_id : TransactionId}
    (h : txDisputedOrGone s tx_id)
    (htx : ¬(tx.action = .Resolve ∧ tx.id = tx_id) ∧
      ¬(tx.action = .Deposit ∧ tx.id = tx_id ∧ tx.amount.isSome = true)) :
    txDisputedOrGone (process_transaction s tx).1 tx_id := by
  obtain ⟨act, cid, tid, amt⟩ := tx
  cases act with
  | Deposit =>
    cases amt with
    | none => exact h
    | some a =>
      have hne : tid ≠ tx_id := by
        intro hh; exact htx.2 ⟨rfl, by simpa using hh, by simp⟩
      intro e' he'
      refine h e' ?_
      simpa [process_transaction, AccountManager.deposit,
        lookup_listUpdate_ne _ _ (Ne.symm hne)] using he'
  | Withdrawal =>
    cases amt with
    | none => exact h
    | some a =>
      intro e' he'
      refine h e' ?_
      rcases hw : ((List.lookup cid s.accounts).getD Account.new).withdraw a
          with e'' | a' <;>
        simpa [process_transaction, AccountManager.withdraw, hw] using he'
  | Dispute =>
    rcases he : List.lookup tid s.tx_cache with _ | e
    · simpa [process_transaction, AccountManager.dispute, he] using h
    · rcases ha : check_authorization e cid with e' | u
      · simpa [process_transaction, AccountManager.dispute, he, ha] using h
      · rcases hu : check_undisputed e tid with e' | u'
        · simpa [process_transaction, AccountManager.dispute, he, ha, hu]
            using h
        · by_cases hid : tid = tx_id
          · exfalso
            subst hid
            have : e.disputed = true := h e he
            simp [check_undisputed, this] at hu
          · intro e'' he''
            refine h e'' ?_
            rcases hd : ((List.lookup cid s.accounts).getD
                Account.new).dispute e.amount with e3 | a3 <;>
              simpa [process_transaction, AccountManager.dispute, he, ha, hu,
                hd, lookup_listUpdate_ne _ _ (Ne.symm hid)] using he''
  | Resolve =>
    have hne : tid ≠ tx_id := by
      intro hh; exact htx.1 ⟨rfl, by simpa using hh⟩
    rcases he : List.lookup tid s.tx_cache with _ | e
    · simpa [process_transaction, AccountManager.resolve, he] using h
    · rcases ha : check_authorization e cid with e' | u
      · simpa [process_transaction, AccountManager.resolve, he, ha] using h
      · rcases hu : check_disputed e tid with e' | u'
        · simpa [process_transaction, AccountManager.resolve, he, ha, hu]
            using h
        · intro e'' he''
          refine h e'' ?_
          simpa [process_transaction, AccountManager.resolve, he, ha, hu,
            lookup_listUpdate_ne _ _ (Ne.symm hne)] using he''
  | Chargeback =>
    rcases he : List.lookup tid s.tx_cache with _ | e
    · simpa [process_transaction, AccountManager.chargeback, he] using h
    · rcases ha : check_authorization e cid with e' | u
      · simpa [process_transaction, AccountManager.chargeback, he, ha] using h
      · rcases hu : check_disputed e tid with e' | u'
        · simpa [process_transaction, AccountManager.chargeback, he, ha, hu]
            using h
        · by_cases hid : tid = tx_id
          · subst hid
            intro e'' he''
            exfalso
            simp [process_transaction, AccountManager.chargeback, he, ha, hu,
              lookup_filterKey_self] at he''
          · intro e'' he''
            refine h e'' ?_
            simpa [process_transaction, AccountManager.chargeback, he, ha, hu,
              lookup_filterKey_ne _ (Ne.symm hid)] using he''

/-- C8 amended: once a dispute of `tx_id` has succeeded (moved funds to
held), no later dispute of `tx_id` can succeed again unless an intervening
record resolves `tx_id` or is a deposit re-recording the identifier `tx_id`;
"in a row" means with any records in between except those two kinds. -/
theorem c8_amended_dispute_exclusivity (s : AccountManager)
    (tx_id : TransactionId) (c₁ c₂ : ClientId) (mid : List Transaction)
    (h : disputeSucceeds s tx_id c₁ = true)
    (hmid : ∀ tx ∈ mid, ¬(tx.action = .Resolve ∧ tx.id = tx_id) ∧
      ¬(tx.action = .Deposit ∧ tx.id = tx_id ∧ tx.amount.isSome = true)) :
    disputeSucceeds (processAll (s.dispute tx_id c₁).1 mid) tx_id c₂ = false := by
  refine disputeSucceeds_false_of_txDisputedOrGone c₂ ?_
  exact processAll_inv (fun st => txDisputedOrGone st tx_id)
    (fun tx => ¬(tx.action = .Resolve ∧ tx.id = tx_id) ∧
      ¬(tx.action = .Deposit ∧ tx.id = tx_id ∧ tx.amount.isSome = true))
    (fun _ _ hP hpred => txDisputedOrGone_step hP hpred) mid _
    (txDisputedOrGone_after_dispute h) hmid

theorem c8_amended_dispute_exclusivity_witness :
    disputeSucceeds
      (processAll
        ((⟨[(1, ⟨1, 0, false⟩)], [(1, ⟨1, 1, false⟩)]⟩ : AccountManager).dispute
          1 1).1
        [⟨.Withdrawal, 1, 2, some 1⟩]) 1 1 = false :=
  c8_amended_dispute_exclusivity ⟨[(1, ⟨1, 0, false⟩)], [(1, ⟨1, 1, false⟩)]⟩
    1 1 1 [⟨.Withdrawal, 1, 2, some 1⟩]
    (by simp [disputeSucceeds, List.lookup, Account.dispute,
      Account.check_locked, Account.check_sufficient_funds])
    (by intro tx htx
        rcases List.mem_singleton.mp htx with rfl
        exact ⟨by simp, by simp⟩)

/-- C8 counterexample: deposit(1, tx 1, 1); dispute succeeds; another deposit
re-using tx 1; the dispute succeeds a second time with no intervening
resolve, and held reaches 2 (funds moved to held twice). -/
theorem c8_counterexample :
    (processAll AccountManager.new [⟨.Deposit, 1, 1, some 1⟩] =
      (⟨[(1, ⟨1, 0, false⟩)], [(1, ⟨1, 1, false⟩)]⟩ : AccountManager)) ∧
    disputeSucceeds
      (⟨[(1, ⟨1, 0, false⟩)], [(1, ⟨1, 1, false⟩)]⟩ : AccountManager) 1 1 =
      true ∧
    ((⟨[(1, ⟨1, 0, false⟩)], [(1, ⟨1, 1, false⟩)]⟩ : AccountManager).dispute
      1 1).1 = (⟨[(1, ⟨0, 1, false⟩)], [(1, ⟨1, 1, true⟩)]⟩ : AccountManager) ∧
    processAll (⟨[(1, ⟨0, 1, false⟩)], [(1, ⟨1, 1, true⟩)]⟩ : AccountManager)
      [⟨.Deposit, 1, 1, some 1⟩] =
      (⟨[(1, ⟨1, 1, false⟩)], [(1, ⟨1, 1, false⟩)]⟩ : AccountManager) ∧
    disputeSucceeds
      (⟨[(1, ⟨1, 1, false⟩)], [(1, ⟨1, 1, false⟩)]⟩ : AccountManager) 1 1 =
      true ∧
    heldOf ((⟨[(1, ⟨1, 1, false⟩)], [(1, ⟨1, 1, false⟩)]⟩ :
      AccountManager).dispute 1 1).1 1 = 2 := by
  refine ⟨?_, ?_, ?_, ?_, ?_, ?_⟩
  · rw [processAll_cons, processAll_nil]
    simp [process_transaction, AccountManager.deposit, AccountManager.new,
      Account.new, Account.deposit, listUpdate, TxCacheEntry.new, List.lookup]
  · simp [disputeSucceeds, List.lookup, Account.dispute, Account.check_locked,
      Account.check_sufficient_funds]
  · simp [AccountManager.dispute, List.lookup, check_authorization,
      check_undisputed, Account.dispute, Account.check_locked,
      Account.check_sufficient_funds, listUpdate]
  · rw [processAll_cons, processAll_nil]
    simp [process_transaction, AccountManager.deposit, Account.deposit,
      listUpdate, TxCacheEntry.new, List.lookup]
  · simp [disputeSucceeds, List.lookup, Account.dispute, Account.check_locked,
      Account.check_sufficient_funds]
  · simp [heldOf, AccountManager.dispute, List.lookup, check_authorization,
      check_undisputed, Account.dispute, Account.check_locked,
      Account.check_sufficient_funds, listUpdate]
    norm_num

/-! ## C1: conservation -/

/-- Inversion of a successful `Account::withdraw`. -/
theorem Account.withdraw_ok {a : Account} {amt : ℚ} {a' : Account}
    (h : a.withdraw amt = .ok a') :
    a' = { a with available := a.available - amt } ∧
    a.locked = false ∧ amt ≤ a.available := by
  obtain ⟨av, dp, lk⟩ := a
  unfold Account.withdraw Account.check_locked Account.check_sufficient_funds
    at h
  by_cases hl : lk = true
  · simp [hl] at h
  · have hl' : lk = false := by simpa using hl
    subst hl'
    simp only [Bool.false_eq_true, if_false] at h
    by_cases hf : av < amt
    · simp [hf] at h
    · simp [hf] at h
      exact ⟨h.symm, rfl, le_of_not_lt hf⟩

/-- Inversion of a successful `Account::dispute`. -/
theorem Account.dispute_ok {a : Account} {amt : ℚ} {a' : Account}
    (h : a.dispute amt = .ok a') :
    a' = { a with available := a.available - amt,
                  disputed := a.disputed + amt } ∧
    a.locked = false ∧ amt ≤ a.available := by
  obtain ⟨av, dp, lk⟩ := a
  unfold Account.dispute Account.check_locked Account.check_sufficient_funds
    at h
  by_cases hl : lk = true
  · simp [hl] at h
  · have hl' : lk = false := by simpa using hl
    subst hl'
    simp only [Bool.false_eq_true, if_false] at h
    by_cases hf : av < amt
    · simp [hf] at h
    · simp [hf] at h
      exact ⟨h.symm, rfl, le_of_not_lt hf⟩

theorem totalOf_listUpdate_self (acc : List (ClientId × Account))
    (txc : List (TransactionId × TxCacheEntry)) (cid : ClientId) (v : Account) :
    totalOf (⟨listUpdate cid v acc, txc⟩ : AccountManager) cid = v.total := by
  simp [totalOf, lookup_listUpdate_self]

theorem totalOf_listUpdate_ne {c cid : ClientId}
    (acc : List (ClientId × Account))
    (txc : List (TransactionId × TxCacheEntry)) (v : Account) (hc : c ≠ cid) :
    totalOf (⟨listUpdate cid v acc, txc⟩ : AccountManager) c =
      totalOf (⟨acc, txc⟩ : AccountManager) c := by
  simp [totalOf, lookup_listUpdate_ne _ _ hc]

/-- The total of every client is invariant under a ledger dispute call,
whatever its outcome. -/
theorem totalOf_dispute (s : AccountManager) (tx_id : TransactionId)
    (cid c : ClientId) : totalOf (s.dispute tx_id cid).1 c = totalOf s c := by
  rcases he : List.lookup tx_id s.tx_cache with _ | e
  · simp [AccountManager.dispute, he]
  · rcases ha : check_authorization e cid with e' | u
    · simp [AccountManager.dispute, he, ha]
    · rcases hu : check_undisputed e tx_id with e' | u'
      · simp [AccountManager.dispute, he, ha, hu]
      · by_cases hc : c = cid
        · subst hc
          rcases hd : ((List.lookup c s.accounts).getD Account.new).dispute
              e.amount with e'' | a''
          · simp only [AccountManager.dispute, he, ha, hu, hd,
              totalOf_listUpdate_self]
            rfl
          · obtain ⟨ha'', -, -⟩ := Account.dispute_ok hd
            simp only [AccountManager.dispute, he, ha, hu, hd,
              totalOf_listUpdate_self, ha'']
            simp [totalOf, Account.total]
        · rcases hd : ((List.lookup cid s.accounts).getD Account.new).dispute
              e.amount with e'' | a'' <;>
            simp only [AccountManager.dispute, he, ha, hu, hd] <;>
            simpa using totalOf_listUpdate_ne s.accounts _ _ hc
  
/-- The total of every client is invariant under a ledger resolve call,
whatever its outcome. -/
theorem totalOf_resolve (s : AccountManager) (tx_id : TransactionId)
    (cid c : ClientId) : totalOf (s.resolve tx_id cid).1 c = totalOf s c := by
  rcases he : List.lookup tx_id s.tx_cache with _ | e
  · simp [AccountManager.resolve, he]
  · rcases ha : check_authorization e cid with e' | u
    · simp [AccountManager.resolve, he, ha]
    · rcases hu : check_disputed e tx_id with e' | u'
      · simp [AccountManager.resolve, he, ha, hu]
      · by_cases hc : c = cid
        · subst hc
          simp only [AccountManager.resolve, he, ha, hu,
            totalOf_listUpdate_self]
          simp [totalOf, Account.total, Account.resolve]
        · simp only [AccountManager.resolve, he, ha, hu]
          simpa using totalOf_listUpdate_ne s.accounts _ _ hc

/-- Effect of a ledger deposit on totals. -/
theorem totalOf_deposit (s : AccountManager) (tx_id : TransactionId)
    (cid c : ClientId) (a : ℚ) :
    totalOf (s.deposit tx_id cid a) c =
      if c = cid then totalOf s c + a else totalOf s c := by
  by_cases hc : c = cid
  · subst hc
    simp only [AccountManager.deposit, totalOf_listUpdate_self, if_pos rfl]
    simp [totalOf, Account.total, Account.deposit]
    ring
  · simp only [AccountManager.deposit, if_neg hc]
    simpa using totalOf_listUpdate_ne s.accounts _ _ hc

/-- Effect of a ledger withdrawal on totals. -/
theorem totalOf_withdraw (s : AccountManager) (cid c : ClientId) (a : ℚ) :
    ((s.withdraw cid a).2 = .ok () →
      totalOf (s.withdraw cid a).1 c =
        if c = cid then totalOf s c - a else totalOf s c) ∧
    (∀ err, (s.withdraw cid a).2 = .error err →
      totalOf (s.withdraw cid a).1 c = totalOf s c) := by
  rcases hw : ((List.lookup cid s.accounts).getD Account.new).withdraw a
      with e' | a'
  · refine ⟨fun hok => ?_, fun err herr => ?_⟩
    · simp [AccountManager.withdraw, hw] at hok
    · by_cases hc : c = cid
      · subst hc
        simp only [AccountManager.withdraw, hw, totalOf_listUpdate_self]
        rfl
      · simp only [AccountManager.withdraw, hw]
        simpa using totalOf_listUpdate_ne s.accounts _ _ hc
  · refine ⟨fun hok => ?_, fun err herr => ?_⟩
    · obtain ⟨ha', -, -⟩ := Account.withdraw_ok hw
      by_cases hc : c = cid
      · subst hc
        simp only [AccountManager.withdraw, hw, totalOf_listUpdate_self,
          if_pos rfl, ha']
        simp [totalOf, Account.total]
        ring
      · simp only [AccountManager.withdraw, hw, if_neg hc]
        simpa using totalOf_listUpdate_ne s.accounts _ _ hc
    · simp [AccountManager.withdraw, hw] at herr

/-- Effect of a ledger chargeback on totals: on success the caller's total
drops by the disputed entry's amount; any other client's total, and every
total on failure, is unchanged. -/
theorem totalOf_chargeback (s : AccountManager) (tx_id : TransactionId)
    (cid c : ClientId) :
    ((s.chargeback tx_id cid).2 = .ok () → c = cid →
      ∃ e, List.lookup tx_id s.tx_cache = some e ∧
        totalOf (s.chargeback tx_id cid).1 c = totalOf s c - e.amount) ∧
    (c ≠ cid → totalOf (s.chargeback tx_id cid).1 c = totalOf s c) ∧
    (∀ err, (s.chargeback tx_id cid).2 = .error err →
      totalOf (s.chargeback tx_id cid).1 c = totalOf s c) := by
  refine ⟨?_, ?_, ?_⟩
  · intro hok hc
    subst hc
    rcases he : List.lookup tx_id s.tx_cache with _ | e
    · simp [AccountManager.chargeback, he] at hok
    · rcases ha : check_authorization e c with e' | u
      · simp [AccountManager.chargeback, he, ha] at hok
      · rcases hu : check_disputed e tx_id with e' | u'
        · simp [AccountManager.chargeback, he, ha, hu] at hok
        · refine ⟨e, rfl, ?_⟩
          simp only [AccountManager.chargeback, he, ha, hu,
            totalOf_listUpdate_self]
          simp [totalOf, Account.total, Account.chargeback]
          ring
  · intro hc
    rcases he : List.lookup tx_id s.tx_cache with _ | e
    · simp [AccountManager.chargeback, he]
    · rcases ha : check_authorization e cid with e' | u
      · simp [AccountManager.chargeback, he, ha]
      · rcases hu : check_disputed e tx_id with e' | u'
        · simp [AccountManager.chargeback, he, ha, hu]
        · simp only [AccountManager.chargeback, he, ha, hu]
          simpa using totalOf_listUpdate_ne s.accounts _ _ hc
  · intro err herr
    rcases he : List.lookup tx_id s.tx_cache with _ | e
    · simp [AccountManager.chargeback, he]
    · rcases ha : check_authorization e cid with e' | u
      · simp [AccountManager.chargeback, he, ha]
      · rcases hu : check_disputed e tx_id with e' | u'
        · simp [AccountManager.chargeback, he, ha, hu]
        · simp [AccountManager.chargeback, he, ha, hu] at herr

/-- C1: for every ledger state, dispatched record, and client, the client's
total changes only as follows: a deposit to the client adds the deposited
amount, a successful withdrawal by the client subtracts the withdrawn
amount, a successful chargeback by the client subtracts the disputed
entry's amount; dispute and resolve (successful or not), failed operations,
and operations of other clients leave the total unchanged. -/
theorem c1_conservation (s : AccountManager) (tx : Transaction) (c : ClientId) :
    ((tx.action = .Dispute ∨ tx.action = .Resolve) →
      totalOf (process_transaction s tx).1 c = totalOf s c) ∧
    (tx.client_id ≠ c →
      totalOf (process_transaction s tx).1 c = totalOf s c) ∧
    (tx.action = .Deposit → tx.client_id = c →
      totalOf (process_transaction s tx).1 c = totalOf s c + tx.amount.getD 0) ∧
    (tx.action = .Withdrawal → tx.client_id = c →
      ((process_transaction s tx).2 = .ok () → tx.amount.isSome = true →
        totalOf (process_transaction s tx).1 c =
          totalOf s c - tx.amount.getD 0) ∧
      (∀ err, (process_transaction s tx).2 = .error err →
        totalOf (process_transaction s tx).1 c = totalOf s c)) ∧
    (tx.action = .Chargeback → tx.client_id = c →
      ((process_transaction s tx).2 = .ok () →
        ∃ e, List.lookup tx.id s.tx_cache = some e ∧
          totalOf (process_transaction s tx).1 c = totalOf s c - e.amount) ∧
      (∀ err, (process_transaction s tx).2 = .error err →
        totalOf (process_transaction s tx).1 c = totalOf s c)) := by
  obtain ⟨act, cid, tid, amt⟩ := tx
  cases act with
  | Deposit =>
    refine ⟨fun h => ?_, fun hc => ?_, fun _ hc => ?_, fun h => Action.noConfusion h,
      fun h => Action.noConfusion h⟩
    · rcases h with h | h <;> exact Action.noConfusion h
    · cases amt with
      | none => rfl
      | some a =>
        simp only [process_transaction]
        rw [totalOf_deposit, if_neg (fun hcc => hc hcc.symm)]
    · subst hc
      cases amt with
      | none => simp [process_transaction]
      | some a =>
        simp only [process_transaction, Option.getD_some]
        rw [totalOf_deposit, if_pos rfl]
  | Withdrawal =>
    refine ⟨fun h => ?_, fun hc => ?_, fun h => Action.noConfusion h, fun _ hc => ?_,
      fun h => Action.noConfusion h⟩
    · rcases h with h | h <;> exact Action.noConfusion h
    · cases amt with
      | none => rfl
      | some a =>
        simp only [process_transaction]
        rcases hr : (s.withdraw cid a).2 with err | u
        · exact (totalOf_withdraw s cid c a).2 err hr
        · cases u
          rw [(totalOf_withdraw s cid c a).1 hr,
            if_neg (fun hcc => hc hcc.symm)]
    · subst hc
      cases amt with
      | none =>
        refine ⟨fun _ hsome => by simp at hsome, fun err herr => ?_⟩
        simp [process_transaction] at herr
      | some a =>
        refine ⟨fun hok _ => ?_, fun err herr => ?_⟩
        · simp only [process_transaction, Option.getD_some] at hok ⊢
          rw [(totalOf_withdraw s cid cid a).1 hok, if_pos rfl]
        · simp only [process_transaction] at herr ⊢
          exact (totalOf_withdraw s cid cid a).2 err herr
  | Dispute =>
    exact ⟨fun _ => totalOf_dispute s tid cid c,
      fun _ => totalOf_dispute s tid cid c, fun h => Action.noConfusion h,
      fun h => Action.noConfusion h, fun h => Action.noConfusion h⟩
  | Resolve =>
    exact ⟨fun _ => totalOf_resolve s tid cid c,
      fun _ => totalOf_resolve s tid cid c, fun h => Action.noConfusion h,
      fun h => Action.noConfusion h, fun h => Action.noConfusion h⟩
  | Chargeback =>
    refine ⟨fun h => ?_, fun hc => ?_, fun h => Action.noConfusion h, fun h => Action.noConfusion h,
      fun _ hc => ?_⟩
    · rcases h with h | h <;> exact Action.noConfusion h
    · exact (totalOf_chargeback s tid cid c).2.1 (fun hcc => hc hcc.symm)
    · subst hc
      exact ⟨fun hok => (totalOf_chargeback s tid cid cid).1 hok rfl,
        fun err herr => (totalOf_chargeback s tid cid cid).2.2 err herr⟩

theorem c1_conservation_witness :
    totalOf (process_transaction (⟨[], []⟩ : AccountManager)
      ⟨.Deposit, 1, 1, some 5⟩).1 1 =
      totalOf (⟨[], []⟩ : AccountManager) 1 +
        ((⟨.Deposit, 1, 1, some 5⟩ : Transaction).amount.getD 0) :=
  (c1_conservation ⟨[], []⟩ ⟨.Deposit, 1, 1, some 5⟩ 1).2.2.1 rfl rfl

/-! ## C2: non-negativity of available balances -/

/-- C2 counterexample: `Account::deposit` performs no check at all, so a
deposit record with a negative amount (which the input shape `Option<f64>`
admits) drives `available` below zero; non-negativity is not enforced at the
deposit mutation boundary. -/
theorem c2_counterexample :
    processAll AccountManager.new [⟨.Deposit, 1, 1, some (-1)⟩] =
      (⟨[(1, ⟨-1, 0, false⟩)], [(1, ⟨1, -1, false⟩)]⟩ : AccountManager) ∧
    availableOf (processAll AccountManager.new [⟨.Deposit, 1, 1, some (-1)⟩])
      1 < 0 := by
  have e1 : processAll AccountManager.new [⟨.Deposit, 1, 1, some (-1)⟩] =
      (⟨[(1, ⟨-1, 0, false⟩)], [(1, ⟨1, -1, false⟩)]⟩ : AccountManager) := by
    rw [processAll_cons, processAll_nil]
    simp [process_transaction, AccountManager.deposit, AccountManager.new,
      Account.new, Account.deposit, listUpdate, TxCacheEntry.new, List.lookup]
  refine ⟨e1, ?_⟩
  rw [e1]
  simp [availableOf, List.lookup]

/-- The C2 invariant: every stored account has a nonnegative available
balance, and every history entry records a nonnegative amount. -/
def NonnegState (s : AccountManager) : Prop :=
  (∀ p ∈ s.accounts, 0 ≤ p.2.available) ∧ (∀ q ∈ s.tx_cache, 0 ≤ q.2.amount)

theorem nonneg_lookup {s : AccountManager} (h : NonnegState s) (c : ClientId) :
    0 ≤ ((List.lookup c s.accounts).getD Account.new).available := by
  rcases hl : List.lookup c s.accounts with _ | x
  · simp [Account.new]
  · simpa using h.1 (c, x) (lookup_mem hl)

theorem nonneg_tx_lookup {s : AccountManager} (h : NonnegState s)
    {tx_id : TransactionId} {e : TxCacheEntry}
    (he : List.lookup tx_id s.tx_cache = some e) : 0 ≤ e.amount := by
  simpa using h.2 (tx_id, e) (lookup_mem he)

/-- One dispatched record preserves the C2 invariant, provided a deposit
record carries a nonnegative amount. -/
theorem NonnegState_step {s : AccountManager} {tx : Transaction}
    (h : NonnegState s)
    (htx : tx.action = .Deposit → ∀ a, tx.amount = some a → 0 ≤ a) :
    NonnegState (process_transaction s tx).1 := by
  obtain ⟨act, cid, tid, amt⟩ := tx
  cases act with
  | Deposit =>
    cases amt with
    | none => exact h
    | some a =>
      have ha : 0 ≤ a := htx rfl a rfl
      constructor
      · intro p hp
        rcases mem_listUpdate hp with hp | hp
        · exact h.1 p hp
        · subst hp
          have := nonneg_lookup h cid
          simp only [Account.deposit]
          positivity
      · intro q hq
        rcases mem_listUpdate hq with hq | hq
        · exact h.2 q hq
        · subst hq
          simpa [TxCacheEntry.new] using ha
  | Withdrawal =>
    cases amt with
    | none => exact h
    | some a =>
      rcases hw : ((List.lookup cid s.accounts).getD Account.new).withdraw a
          with e' | a'
      · constructor
        · intro p hp
          rcases mem_listUpdate
              (by simpa [process_transaction, AccountManager.withdraw, hw]
                using hp) with hp' | hp'
          · exact h.1 p hp'
          · subst hp'
            exact nonneg_lookup h cid
        · intro q hq
          refine h.2 q ?_
          simpa [process_transaction, AccountManager.withdraw, hw] using hq
      · obtain ⟨ha', -, hle⟩ := Account.withdraw_ok hw
        constructor
        · intro p hp
          rcases mem_listUpdate
              (by simpa [process_transaction, AccountManager.withdraw, hw]
                using hp) with hp' | hp'
          · exact h.1 p hp'
          · subst hp'
            simp only [ha']
            simpa using sub_nonneg.mpr hle
        · intro q hq
          refine h.2 q ?_
          simpa [process_transaction, AccountManager.withdraw, hw] using hq
  | Dispute =>
    rcases he : List.lookup tid s.tx_cache with _ | e
    · simpa [process_transaction, AccountManager.dispute, he] using h
    · rcases ha : check_authorization e cid with e' | u
      · simpa [process_transaction, AccountManager.dispute, he, ha] using h
      · rcases hu : check_undisputed e tid with e' | u'
        · simpa [process_transaction, AccountManager.dispute, he, ha, hu]
            using h
        · rcases hd : ((List.lookup cid s.accounts).getD Account.new).dispute
              e.amount with e'' | a''
          · constructor
            · intro p hp
              rcases mem_listUpdate
                  (by simpa [process_transaction, AccountManager.dispute, he,
                    ha, hu, hd] using hp) with hp' | hp'
              · exact h.1 p hp'
              · subst hp'
                exact nonneg_lookup h cid
            · intro q hq
              rcases mem_listUpdate
                  (by simpa [process_transaction, AccountManager.dispute, he,
                    ha, hu, hd] using hq) with hq' | hq'
              · exact h.2 q hq'
              · subst hq'
                simpa using nonneg_tx_lookup h he
          · obtain ⟨ha'', -, hle⟩ := Account.dispute_ok hd
            constructor
            · intro p hp
              rcases mem_listUpdate
                  (by simpa [process_transaction, AccountManager.dispute, he,
                    ha, hu, hd] using hp) with hp' | hp'
              · exact h.1 p hp'
              · subst hp'
                simp only [ha'']
                simpa using sub_nonneg.mpr hle
            · intro q hq
              rcases mem_listUpdate
                  (by simpa [process_transaction, AccountManager.dispute, he,
                    ha, hu, hd] using hq) with hq' | hq'
              · exact h.2 q hq'
              · subst hq'
                simpa using nonneg_tx_lookup h he
  | Resolve =>
    rcases he : List.lookup tid s.tx_cache with _ | e
    · simpa [process_transaction, AccountManager.resolve, he] using h
    · rcases ha : check_authorization e cid with e' | u
      · simpa [process_transaction, AccountManager.resolve, he, ha] using h
      · rcases hu : check_disputed e tid with e' | u'
        · simpa [process_transaction, AccountManager.resolve, he, ha, hu]
            using h
        · constructor
          · intro p hp
            rcases mem_listUpdate
                (by simpa [process_transaction, AccountManager.resolve, he,
                  ha, hu] using hp) with hp' | hp'
            · exact h.1 p hp'
            · subst hp'
              have h1 := nonneg_lookup h cid
              have h2 := nonneg_tx_lookup h he
              simp only [Account.resolve]
              positivity
          · intro q hq
            rcases mem_listUpdate
                (by simpa [process_transaction, AccountManager.resolve, he,
                  ha, hu] using hq) with hq' | hq'
            · exact h.2 q hq'
            · subst hq'
              simpa using nonneg_tx_lookup h he
  | Chargeback =>
    rcases he : List.lookup tid s.tx_cache with _ | e
    · simpa [process_transaction, AccountManager.chargeback, he] using h
    · rcases ha : check_authorization e cid with e' | u
      · simpa [process_transaction, AccountManager.chargeback, he, ha] using h
      · rcases hu : check_disputed e tid with e' | u'
        · simpa [process_transaction, AccountManager.chargeback, he, ha, hu]
            using h
        · constructor
          · intro p hp
            rcases mem_listUpdate
                (by simpa [process_transaction, AccountManager.chargeback, he,
                  ha, hu] using hp) with hp' | hp'
            · exact h.1 p hp'
            · subst hp'
              simpa [Account.chargeback] using nonneg_lookup h cid
          · intro q hq
            refine h.2 q ?_
            have : q ∈ s.tx_cache.filter (fun p => p.1 != tid) := by
              simpa [process_transaction, AccountManager.chargeback, he, ha,
                hu] using hq
            exact List.mem_of_mem_filter this

/-- C2 amended: provided every deposit record in the run carries a
nonnegative amount, the available balance of every client is nonnegative in
every reachable state; withdraw and dispute enforce this by rejection (never
clamping), while deposit itself performs no check and preserves it only
because a nonnegative deposit cannot lower the balance. -/
theorem c2_amended_nonnegativity (txs : List Transaction)
    (hdep : ∀ tx ∈ txs, tx.action = .Deposit →
      ∀ a, tx.amount = some a → 0 ≤ a) (c : ClientId) :
    0 ≤ availableOf (processAll AccountManager.new txs) c := by
  have hinv : NonnegState (processAll AccountManager.new txs) := by
    refine processAll_inv NonnegState
      (fun tx => tx.action = .Deposit → ∀ a, tx.amount = some a → 0 ≤ a)
      (fun _ _ hP hpred => NonnegState_step hP hpred) txs AccountManager.new
      ⟨?_, ?_⟩ hdep
    · intro p hp; simp [AccountManager.new] at hp
    · intro q hq; simp [AccountManager.new] at hq
  exact nonneg_lookup hinv c

theorem c2_amended_nonnegativity_witness :
    0 ≤ availableOf (processAll AccountManager.new
      [⟨.Deposit, 1, 1, some 2⟩, ⟨.Withdrawal, 1, 2, some 9⟩,
       ⟨.Dispute, 1, 1, none⟩]) 1 :=
  c2_amended_nonnegativity
    [⟨.Deposit, 1, 1, some 2⟩, ⟨.Withdrawal, 1, 2, some 9⟩,
     ⟨.Dispute, 1, 1, none⟩]
    (by intro tx htx hact a hamt
        simp only [List.mem_cons, List.not_mem_nil, or_false] at htx
        rcases htx with rfl | rfl | rfl
        · cases hamt; norm_num
        · exact Action.noConfusion hact
        · exact Action.noConfusion hact) 1

end Accounting
